import Mathlib

/-!
Verification of the workflow-command encoding/decoding core of
`github_action_utils.py`.

Python strings are modelled as `List Char`; every helper below is a direct
translation of the corresponding Python function or method (Python method
semantics such as `str.replace`, `str.strip`, `str.title`, binary file line
iteration, and dict assignment are reproduced explicitly).  Fallible Python
code (missing environment variables, `json.dumps` type errors, the
`UnboundLocalError` reachable in the state-file reader) is modelled with
`Except PyError`.
-/

set_option autoImplicit false

namespace GithubActionUtils

/-- Errors raised by the modelled Python code. -/
inductive PyError where
  | keyError
  | typeError
  | fileNotFoundError
  | unboundLocalError
  deriving DecidableEq

/-- Boolean test that a list starts with the given pattern
(`needle`-first argument order: `listStartsWith pat s`). -/
def listStartsWith : List Char → List Char → Bool
  | [], _ => true
  | _ :: _, [] => false
  | p :: ps, c :: cs => if p = c then listStartsWith ps cs else false

/-- Python substring test `pat in s`. -/
def containsSub (pat : List Char) : List Char → Bool
  | [] => pat.isEmpty
  | c :: rest => listStartsWith pat (c :: rest) || containsSub pat rest

/-- Everything before the first occurrence of `pat`; the whole list when
`pat` does not occur.  This is `s.split(pat)[0]` in Python (for a
non-empty `pat`). -/
def takeBeforeSub (pat : List Char) : List Char → List Char
  | [] => []
  | c :: rest => if listStartsWith pat (c :: rest) then [] else c :: takeBeforeSub pat rest

/-- Fuel-indexed worker for `pyReplace`.  The fuel makes the recursion
structural, so the function evaluates inside the kernel; `pyReplace` below
instantiates the fuel with the length of the scanned list, which is always
sufficient. -/
def pyReplaceFuel (pat rep : List Char) : Nat → List Char → List Char
  | 0, s => s
  | _ + 1, [] => []
  | fuel + 1, c :: rest =>
    if pat ≠ [] ∧ listStartsWith pat (c :: rest) = true then
      rep ++ pyReplaceFuel pat rep fuel (rest.drop (pat.length - 1))
    else
      c :: pyReplaceFuel pat rep fuel rest

/-- Python `s.replace(pat, rep)`: leftmost, non-overlapping, single pass.
(The Python special case of an empty pattern is never exercised by this
code base; here an empty pattern never matches.) -/
def pyReplace (pat rep s : List Char) : List Char :=
  pyReplaceFuel pat rep s.length s

theorem pyReplaceFuel_fuel_irrel (pat rep : List Char) :
    ∀ f₁ : Nat, ∀ f₂ : Nat, ∀ s : List Char, s.length ≤ f₁ → s.length ≤ f₂ →
      pyReplaceFuel pat rep f₁ s = pyReplaceFuel pat rep f₂ s := by
  intro f₁
  induction f₁ with
  | zero =>
    intro f₂ s h₁ h₂
    have hs : s = [] := List.length_eq_zero.mp (Nat.le_zero.mp h₁)
    subst hs
    cases f₂ <;> rfl
  | succ f ih =>
    intro f₂ s h₁ h₂
    cases s with
    | nil => cases f₂ <;> rfl
    | cons c rest =>
      cases f₂ with
      | zero => exact absurd h₂ (by simp)
      | succ f₂' =>
        simp only [pyReplaceFuel]
        have hlen : rest.length ≤ f := by simp only [List.length_cons] at h₁; omega
        have hlen₂ : rest.length ≤ f₂' := by simp only [List.length_cons] at h₂; omega
        by_cases hmatch : pat ≠ [] ∧ listStartsWith pat (c :: rest) = true
        · simp only [if_pos hmatch]
          have hd : (rest.drop (pat.length - 1)).length ≤ rest.length := by
            simp [List.length_drop]
          exact congrArg (rep ++ ·)
            (ih _ _ (Nat.le_trans hd hlen) (Nat.le_trans hd hlen₂))
        · simp only [if_neg hmatch]
          exact congrArg (c :: ·) (ih _ _ hlen hlen₂)

@[simp] theorem pyReplace_nil (pat rep : List Char) : pyReplace pat rep [] = [] := by
  simp [pyReplace, pyReplaceFuel]

theorem pyReplace_cons (pat rep : List Char) (c : Char) (rest : List Char) :
    pyReplace pat rep (c :: rest) =
      if pat ≠ [] ∧ listStartsWith pat (c :: rest) = true then
        rep ++ pyReplace pat rep (rest.drop (pat.length - 1))
      else
        c :: pyReplace pat rep rest := by
  show pyReplaceFuel pat rep (rest.length + 1) (c :: rest) = _
  simp only [pyReplaceFuel]
  by_cases hmatch : pat ≠ [] ∧ listStartsWith pat (c :: rest) = true
  · simp only [if_pos hmatch]
    refine congrArg (rep ++ ·) ?_
    exact pyReplaceFuel_fuel_irrel pat rep _ _ _ (by simp [List.length_drop]) (le_refl _)
  · simp only [if_neg hmatch]
    rfl

/-- Character-by-character expansion; reasoning normal form for chains of
single-character `pyReplace` calls. -/
def charExpand (f : Char → List Char) : List Char → List Char
  | [] => []
  | c :: rest => f c ++ charExpand f rest

@[simp] theorem charExpand_nil (f : Char → List Char) : charExpand f [] = [] := rfl

@[simp] theorem charExpand_cons (f : Char → List Char) (c : Char) (rest : List Char) :
    charExpand f (c :: rest) = f c ++ charExpand f rest := rfl

theorem charExpand_append (f : Char → List Char) (a b : List Char) :
    charExpand f (a ++ b) = charExpand f a ++ charExpand f b := by
  induction a with
  | nil => simp
  | cons c rest ih => simp [ih]

theorem charExpand_congr (f g : Char → List Char) (s : List Char)
    (h : ∀ c ∈ s, f c = g c) : charExpand f s = charExpand g s := by
  induction s with
  | nil => rfl
  | cons c rest ih =>
    simp only [charExpand_cons]
    rw [h c (by simp), ih (fun d hd => h d (by simp [hd]))]

theorem charExpand_comp (f g : Char → List Char) (s : List Char) :
    charExpand g (charExpand f s) = charExpand (fun c => charExpand g (f c)) s := by
  induction s with
  | nil => rfl
  | cons c rest ih => simp [charExpand_append, ih]

theorem charExpand_id (f : Char → List Char) (s : List Char)
    (h : ∀ c ∈ s, f c = [c]) : charExpand f s = s := by
  induction s with
  | nil => rfl
  | cons c rest ih =>
    simp only [charExpand_cons]
    rw [h c (by simp), ih (fun d hd => h d (by simp [hd]))]
    rfl

theorem pyReplace_single (p : Char) (rep s : List Char) :
    pyReplace [p] rep s = charExpand (fun c => if c = p then rep else [c]) s := by
  induction s with
  | nil => simp
  | cons c rest ih =>
    rw [pyReplace_cons]
    by_cases h : p = c
    · subst h
      simp [listStartsWith, ih]
    · simp [listStartsWith, if_neg h, if_neg (Ne.symm h), ih]

/-- String part of `_escape_data`: the chained replacements
`replace("%", "%25").replace("\r", "%0D").replace("\n", "%0A")` applied to the
already-stringified data. -/
def escape_data_str (s : List Char) : List Char :=
  pyReplace (['\n']) (['%', '0', 'A'])
    (pyReplace (['\r']) (['%', '0', 'D'])
      (pyReplace (['%']) (['%', '2', '5']) s))

/-- String part of `_escape_property`: `_escape_data` output with the further
replacements `replace(":", "%3A").replace(",", "%2C")`. -/
def escape_property_str (s : List Char) : List Char :=
  pyReplace ([',']) (['%', '2', 'C'])
    (pyReplace ([':']) (['%', '3', 'A']) (escape_data_str s))

/-- `_clean_markdown_string`: `replace("%25", "%").replace("%0D", "\r").replace("%0A", "\n")`,
in that order. -/
def clean_markdown_string (s : List Char) : List Char :=
  pyReplace (['%', '0', 'A']) (['\n'])
    (pyReplace (['%', '0', 'D']) (['\r'])
      (pyReplace (['%', '2', '5']) (['%']) s))

/-- Per-character effect of `_escape_data` on a string. -/
def escDataChar (c : Char) : List Char :=
  if c = '%' then ['%', '2', '5']
  else if c = '\r' then ['%', '0', 'D']
  else if c = '\n' then ['%', '0', 'A']
  else [c]

/-- Per-character effect of `_escape_property` on a string. -/
def escPropChar (c : Char) : List Char :=
  if c = '%' then ['%', '2', '5']
  else if c = '\r' then ['%', '0', 'D']
  else if c = '\n' then ['%', '0', 'A']
  else if c = ':' then ['%', '3', 'A']
  else if c = ',' then ['%', '2', 'C']
  else [c]

theorem escape_data_str_eq_charExpand (s : List Char) :
    escape_data_str s = charExpand escDataChar s := by
  unfold escape_data_str
  rw [pyReplace_single, pyReplace_single, pyReplace_single,
    charExpand_comp, charExpand_comp]
  refine charExpand_congr _ _ s (fun c _ => ?_)
  by_cases h1 : c = '%'
  · subst h1; rfl
  by_cases h2 : c = '\r'
  · subst h2; rfl
  by_cases h3 : c = '\n'
  · subst h3; rfl
  simp [escDataChar, if_neg h1, if_neg h2, if_neg h3]

theorem escape_property_str_eq_charExpand (s : List Char) :
    escape_property_str s = charExpand escPropChar s := by
  unfold escape_property_str
  rw [escape_data_str_eq_charExpand, pyReplace_single, pyReplace_single,
    charExpand_comp, charExpand_comp]
  refine charExpand_congr _ _ s (fun c _ => ?_)
  by_cases h1 : c = '%'
  · subst h1; rfl
  by_cases h2 : c = '\r'
  · subst h2; rfl
  by_cases h3 : c = '\n'
  · subst h3; rfl
  by_cases h4 : c = ':'
  · subst h4; simp [escDataChar, escPropChar, if_neg h1, if_neg h2, if_neg h3]
  by_cases h5 : c = ','
  · subst h5; simp [escDataChar, escPropChar, if_neg h1, if_neg h2, if_neg h3, if_neg h4]
  simp [escDataChar, escPropChar, if_neg h1, if_neg h2, if_neg h3, if_neg h4, if_neg h5]

theorem escape_data_str_id (s : List Char)
    (h : ∀ c ∈ s, c ≠ '%' ∧ c ≠ '\r' ∧ c ≠ '\n') : escape_data_str s = s := by
  rw [escape_data_str_eq_charExpand]
  refine charExpand_id _ _ (fun c hc => ?_)
  obtain ⟨h1, h2, h3⟩ := h c hc
  simp [escDataChar, if_neg h1, if_neg h2, if_neg h3]

theorem escape_property_str_id (s : List Char)
    (h : ∀ c ∈ s, c ≠ '%' ∧ c ≠ '\r' ∧ c ≠ '\n' ∧ c ≠ ':' ∧ c ≠ ',') :
    escape_property_str s = s := by
  rw [escape_property_str_eq_charExpand]
  refine charExpand_id _ _ (fun c hc => ?_)
  obtain ⟨h1, h2, h3, h4, h5⟩ := h c hc
  simp [escPropChar, if_neg h1, if_neg h2, if_neg h3, if_neg h4, if_neg h5]

theorem cr_not_mem_escape_data (s : List Char) : '\r' ∉ escape_data_str s := by
  rw [escape_data_str_eq_charExpand]
  induction s with
  | nil => simp
  | cons c rest ih =>
    simp only [charExpand_cons, List.mem_append]
    rintro (hc | hc)
    · by_cases h1 : c = '%'
      · subst h1; revert hc; decide
      by_cases h2 : c = '\r'
      · subst h2; revert hc; decide
      by_cases h3 : c = '\n'
      · subst h3; revert hc; decide
      · simp [escDataChar, if_neg h1, if_neg h2, if_neg h3] at hc
        exact h2 hc.symm
    · exact ih hc

theorem lf_not_mem_escape_data (s : List Char) : '\n' ∉ escape_data_str s := by
  rw [escape_data_str_eq_charExpand]
  induction s with
  | nil => simp
  | cons c rest ih =>
    simp only [charExpand_cons, List.mem_append]
    rintro (hc | hc)
    · by_cases h1 : c = '%'
      · subst h1; revert hc; decide
      by_cases h2 : c = '\r'
      · subst h2; revert hc; decide
      by_cases h3 : c = '\n'
      · subst h3; revert hc; decide
      · simp [escDataChar, if_neg h1, if_neg h2, if_neg h3] at hc
        exact h3 hc.symm
    · exact ih hc

/-- Every `%` in the list is immediately followed by `25`, `0D` or `0A`:
the percent signs occur only inside escape triples. -/
def pctTriples : List Char → Bool
  | [] => true
  | c :: rest =>
    if c = '%' then
      match rest with
      | '2' :: '5' :: r2 => pctTriples r2
      | '0' :: 'D' :: r2 => pctTriples r2
      | '0' :: 'A' :: r2 => pctTriples r2
      | _ => false
    else pctTriples rest

theorem pctTriples_cons_ne (c : Char) (rest : List Char) (h : c ≠ '%') :
    pctTriples (c :: rest) = pctTriples rest := by
  rw [pctTriples.eq_def]
  simp [h]

theorem pctTriples_escape_data (s : List Char) :
    pctTriples (escape_data_str s) = true := by
  rw [escape_data_str_eq_charExpand]
  induction s with
  | nil => rfl
  | cons c rest ih =>
    simp only [charExpand_cons]
    by_cases h1 : c = '%'
    · subst h1
      show pctTriples ('%' :: '2' :: '5' :: charExpand escDataChar rest) = true
      simpa [pctTriples] using ih
    by_cases h2 : c = '\r'
    · subst h2
      show pctTriples ('%' :: '0' :: 'D' :: charExpand escDataChar rest) = true
      simpa [pctTriples] using ih
    by_cases h3 : c = '\n'
    · subst h3
      show pctTriples ('%' :: '0' :: 'A' :: charExpand escDataChar rest) = true
      simpa [pctTriples] using ih
    · simp only [escDataChar, if_neg h1, if_neg h2, if_neg h3, List.singleton_append]
      rw [pctTriples_cons_ne c _ h1]
      exact ih

theorem pyReplace_scan (pat rep : List Char) (c : Char) (rest : List Char)
    (h : listStartsWith pat (c :: rest) = false) :
    pyReplace pat rep (c :: rest) = c :: pyReplace pat rep rest := by
  rw [pyReplace_cons, if_neg]
  rintro ⟨-, hc⟩
  rw [h] at hc
  exact Bool.false_ne_true hc

theorem pyReplace_hit (pat rep : List Char) (c : Char) (rest : List Char)
    (hne : pat ≠ []) (h : listStartsWith pat (c :: rest) = true) :
    pyReplace pat rep (c :: rest) = rep ++ pyReplace pat rep (rest.drop (pat.length - 1)) := by
  rw [pyReplace_cons, if_pos ⟨hne, h⟩]

/-- Per-character map left by the first two steps of `_clean_markdown_string`
on escaped, percent-free text: only the `\n` escapes are still encoded. -/
def escNLChar (c : Char) : List Char :=
  if c = '\n' then ['%', '0', 'A'] else [c]

theorem clean_step1 (s : List Char) (h : '%' ∉ s) :
    pyReplace (['%', '2', '5']) (['%']) (charExpand escDataChar s) =
      charExpand escDataChar s := by
  induction s with
  | nil => simp
  | cons c rest ih =>
    have hc : c ≠ '%' := fun hc => h (by simp [hc])
    have hrest := ih (fun hm => h (by simp [hm]))
    simp only [charExpand_cons]
    by_cases h2 : c = '\r'
    · subst h2
      show pyReplace _ _ ('%' :: '0' :: 'D' :: charExpand escDataChar rest) = _
      rw [pyReplace_scan _ _ _ _ (by simp [listStartsWith]),
        pyReplace_scan _ _ _ _ (by simp [listStartsWith]),
        pyReplace_scan _ _ _ _ (by simp [listStartsWith]), hrest]
      rfl
    by_cases h3 : c = '\n'
    · subst h3
      show pyReplace _ _ ('%' :: '0' :: 'A' :: charExpand escDataChar rest) = _
      rw [pyReplace_scan _ _ _ _ (by simp [listStartsWith]),
        pyReplace_scan _ _ _ _ (by simp [listStartsWith]),
        pyReplace_scan _ _ _ _ (by simp [listStartsWith]), hrest]
      rfl
    · simp only [escDataChar, if_neg hc, if_neg h2, if_neg h3, List.singleton_append]
      rw [pyReplace_scan _ _ _ _ (by simp [listStartsWith, Ne.symm hc]), hrest]

theorem clean_step2 (s : List Char) (h : '%' ∉ s) :
    pyReplace (['%', '0', 'D']) (['\r']) (charExpand escDataChar s) =
      charExpand escNLChar s := by
  induction s with
  | nil => simp
  | cons c rest ih =>
    have hc : c ≠ '%' := fun hc => h (by simp [hc])
    have hrest := ih (fun hm => h (by simp [hm]))
    simp only [charExpand_cons]
    by_cases h2 : c = '\r'
    · subst h2
      show pyReplace _ _ ('%' :: '0' :: 'D' :: charExpand escDataChar rest) = _
      rw [pyReplace_hit _ _ _ _ (by simp) (by simp [listStartsWith])]
      simp only [List.length_cons, List.drop_succ_cons, List.drop_zero, List.length_nil]
      rw [hrest]
      rfl
    by_cases h3 : c = '\n'
    · subst h3
      show pyReplace _ _ ('%' :: '0' :: 'A' :: charExpand escDataChar rest) = _
      rw [pyReplace_scan _ _ _ _ (by simp [listStartsWith]),
        pyReplace_scan _ _ _ _ (by simp [listStartsWith]),
        pyReplace_scan _ _ _ _ (by simp [listStartsWith]), hrest]
      rfl
    · simp only [escDataChar, if_neg hc, if_neg h2, if_neg h3, List.singleton_append]
      rw [pyReplace_scan _ _ _ _ (by simp [listStartsWith, Ne.symm hc]), hrest]
      simp [escNLChar, if_neg h3]

theorem clean_step3 (s : List Char) (h : '%' ∉ s) :
    pyReplace (['%', '0', 'A']) (['\n']) (charExpand escNLChar s) = s := by
  induction s with
  | nil => simp
  | cons c rest ih =>
    have hc : c ≠ '%' := fun hc => h (by simp [hc])
    have hrest := ih (fun hm => h (by simp [hm]))
    simp only [charExpand_cons]
    by_cases h3 : c = '\n'
    · subst h3
      show pyReplace _ _ ('%' :: '0' :: 'A' :: charExpand escNLChar rest) = _
      rw [pyReplace_hit _ _ _ _ (by simp) (by simp [listStartsWith])]
      simp only [List.length_cons, List.drop_succ_cons, List.drop_zero, List.length_nil]
      rw [hrest]
      rfl
    · simp only [escNLChar, if_neg h3, List.singleton_append]
      rw [pyReplace_scan _ _ _ _ (by simp [listStartsWith, Ne.symm hc]), hrest]

theorem clean_of_escape_of_pct_free (s : List Char) (h : '%' ∉ s) :
    clean_markdown_string (escape_data_str s) = s := by
  unfold clean_markdown_string
  rw [escape_data_str_eq_charExpand, clean_step1 s h, clean_step2 s h, clean_step3 s h]

/-- C3 (counterexample): the data-only string `"%0D"` (it contains neither
`:` nor `,`) does not round-trip: `_clean_markdown_string(_escape_data("%0D"))`
is the one-character string `"\r"`. -/
theorem c3_roundtrip_counterexample :
    clean_markdown_string (escape_data_str (['%', '0', 'D'])) = ['\r'] ∧
      (':' ∉ (['%', '0', 'D'] : List Char)) ∧
      (',' ∉ (['%', '0', 'D'] : List Char)) ∧
      clean_markdown_string (escape_data_str (['%', '0', 'D'])) ≠ ['%', '0', 'D'] := by
  refine ⟨rfl, by decide, by decide, ?_⟩
  intro hc
  rw [show clean_markdown_string (escape_data_str (['%', '0', 'D'])) = ['\r'] from rfl] at hc
  exact absurd hc (by decide)

/-- C3 (amended): for every string, `_escape_data` output contains no literal
`\r`, no literal `\n`, and no `%` outside the introduced `%25`/`%0D`/`%0A`
triples; and a data-only string (no `:`, no `,`) that moreover contains no
`%` is recovered exactly by `_clean_markdown_string`.  (The percent-free
restriction on the round-trip half is forced by the `"%0D"` counterexample:
`_clean_markdown_string` undoes `%25` first, which can create fresh `%0D`/`%0A`
groups that the later replacements then consume.) -/
theorem c3_escape_data_props :
    (∀ s : List Char,
      '\r' ∉ escape_data_str s ∧ '\n' ∉ escape_data_str s ∧
        pctTriples (escape_data_str s) = true) ∧
    (∀ s : List Char, '%' ∉ s → ':' ∉ s → ',' ∉ s →
      clean_markdown_string (escape_data_str s) = s) :=
  ⟨fun s => ⟨cr_not_mem_escape_data s, lf_not_mem_escape_data s, pctTriples_escape_data s⟩,
   fun s h _ _ => clean_of_escape_of_pct_free s h⟩

/-- Witness for C3 at concrete inputs. -/
theorem c3_escape_data_props_witness :
    '\r' ∉ escape_data_str (['a', '\r', '\n']) ∧
      clean_markdown_string (escape_data_str (['a', '\r', '\n'])) = ['a', '\r', '\n'] :=
  ⟨(c3_escape_data_props.1 (['a', '\r', '\n'])).1,
   c3_escape_data_props.2 (['a', '\r', '\n']) (by decide) (by decide) (by decide)⟩

/-- Python values that can be handed to the escapers (`data: Any`).
`pobj` stands for any object that is not JSON serializable (a set, a class
instance, ...) together with its default `str()` form. -/
inductive PyValue where
  | pstr (s : List Char)
  | pint (n : Int)
  | pbool (b : Bool)
  | pnone
  | pobj (str_form : List Char)
  | plist (xs : List PyValue)
  | ptuple (xs : List PyValue)
  | pdict (kvs : List (List Char × PyValue))

/-- Lower-case hexadecimal digit, as produced by `json.dumps`. -/
def jsonHexDigit (n : Nat) : Char :=
  if n < 10 then Char.ofNat (48 + n) else Char.ofNat (87 + n)

/-- A `\uXXXX` escape. -/
def jsonU16 (n : Nat) : List Char :=
  [ '\\', 'u', jsonHexDigit (n / 4096 % 16), jsonHexDigit (n / 256 % 16),
    jsonHexDigit (n / 16 % 16), jsonHexDigit (n % 16)]

/-- Character encoding used by `json.dumps` with its default
`ensure_ascii=True`. -/
def jsonEscapeChar (c : Char) : List Char :=
  if c = '"' then [ '\\', '"']
  else if c = '\\' then [ '\\', '\\']
  else if c = '\n' then [ '\\', 'n']
  else if c = '\r' then [ '\\', 'r']
  else if c = '\t' then [ '\\', 't']
  else if c.toNat = 8 then [ '\\', 'b']
  else if c.toNat = 12 then [ '\\', 'f']
  else if c.toNat < 32 then jsonU16 c.toNat
  else if c.toNat < 127 then [c]
  else if c.toNat < 65536 then jsonU16 c.toNat
  else jsonU16 (55296 + (c.toNat - 65536) / 1024) ++ jsonU16 (56320 + (c.toNat - 65536) % 1024)

/-- A JSON string literal: quote, escaped characters, quote. -/
def jsonQuote (s : List Char) : List Char :=
  '"' :: charExpand jsonEscapeChar s ++ [ '"']

/-- Join with a separator (`json.dumps` default separators are
comma-space and colon-space). -/
def joinSep (sep : List Char) : List (List Char) → List Char
  | [] => []
  | [x] => x
  | x :: rest => x ++ sep ++ joinSep sep rest

mutual

/-- `json.dumps` restricted to the value shapes of `PyValue`; a `pobj`
anywhere inside raises `TypeError` (object not JSON serializable). -/
def jsonDumps : PyValue → Except PyError (List Char)
  | .pstr s => .ok (jsonQuote s)
  | .pint n => .ok ((toString n).toList)
  | .pbool b => .ok (if b then ("true").toList else ("false").toList)
  | .pnone => .ok (("null").toList)
  | .pobj _ => .error .typeError
  | .plist xs => (jsonDumpsList xs).map (fun parts => '[' :: joinSep ([',', ' ']) parts ++ [ ']'])
  | .ptuple xs => (jsonDumpsList xs).map (fun parts => '[' :: joinSep ([',', ' ']) parts ++ [ ']'])
  | .pdict kvs =>
    (jsonDumpsDict kvs).map
      (fun parts => Char.ofNat 123 :: joinSep ([',', ' ']) parts ++ [Char.ofNat 125])

def jsonDumpsList : List PyValue → Except PyError (List (List Char))
  | [] => .ok []
  | x :: xs => do
    let hd ← jsonDumps x
    let tl ← jsonDumpsList xs
    .ok (hd :: tl)

def jsonDumpsDict : List (List Char × PyValue) → Except PyError (List (List Char))
  | [] => .ok []
  | kv :: rest => do
    let v ← jsonDumps kv.2
    let tl ← jsonDumpsDict rest
    .ok ((jsonQuote kv.1 ++ [':', ' '] ++ v) :: tl)

end

mutual

/-- The value contains no `pobj`, i.e. `json.dumps` accepts it. -/
def jsonOk : PyValue → Bool
  | .pstr _ => true
  | .pint _ => true
  | .pbool _ => true
  | .pnone => true
  | .pobj _ => false
  | .plist xs => jsonOkList xs
  | .ptuple xs => jsonOkList xs
  | .pdict kvs => jsonOkDict kvs

def jsonOkList : List PyValue → Bool
  | [] => true
  | x :: xs => jsonOk x && jsonOkList xs

def jsonOkDict : List (List Char × PyValue) → Bool
  | [] => true
  | kv :: rest => jsonOk kv.2 && jsonOkDict rest

end

/-- Whether an `Except` result is a success. -/
def exOk {α : Type} : Except PyError α → Bool
  | .ok _ => true
  | .error _ => false

theorem exOk_map {α β : Type} (f : α → β) (e : Except PyError α) :
    exOk (e.map f) = exOk e := by
  cases e <;> rfl

mutual

theorem jsonDumps_isOk : ∀ v : PyValue, jsonOk v = true → exOk (jsonDumps v) = true
  | .pstr _, _ => rfl
  | .pint _, _ => rfl
  | .pbool _, _ => rfl
  | .pnone, _ => rfl
  | .pobj _, h => by simp [jsonOk] at h
  | .plist xs, h => by
    have h' : jsonOkList xs = true := by simpa [jsonOk] using h
    simp only [jsonDumps, exOk_map]
    exact jsonDumpsList_isOk xs h'
  | .ptuple xs, h => by
    have h' : jsonOkList xs = true := by simpa [jsonOk] using h
    simp only [jsonDumps, exOk_map]
    exact jsonDumpsList_isOk xs h'
  | .pdict kvs, h => by
    have h' : jsonOkDict kvs = true := by simpa [jsonOk] using h
    simp only [jsonDumps, exOk_map]
    exact jsonDumpsDict_isOk kvs h'

theorem jsonDumpsList_isOk : ∀ xs : List PyValue, jsonOkList xs = true →
    exOk (jsonDumpsList xs) = true
  | [], _ => rfl
  | x :: xs, h => by
    simp only [jsonOkList, Bool.and_eq_true] at h
    have h1 := jsonDumps_isOk x h.1
    have h2 := jsonDumpsList_isOk xs h.2
    simp only [jsonDumpsList]
    cases hv : jsonDumps x with
    | error e => rw [hv] at h1; exact absurd h1 (by simp [exOk])
    | ok s =>
      cases hv2 : jsonDumpsList xs with
      | error e => rw [hv2] at h2; exact absurd h2 (by simp [exOk])
      | ok ps => rfl

theorem jsonDumpsDict_isOk : ∀ kvs : List (List Char × PyValue), jsonOkDict kvs = true →
    exOk (jsonDumpsDict kvs) = true
  | [], _ => rfl
  | kv :: rest, h => by
    simp only [jsonOkDict, Bool.and_eq_true] at h
    have h1 := jsonDumps_isOk kv.2 h.1
    have h2 := jsonDumpsDict_isOk rest h.2
    simp only [jsonDumpsDict]
    cases hv : jsonDumps kv.2 with
    | error e => rw [hv] at h1; exact absurd h1 (by simp [exOk])
    | ok s =>
      cases hv2 : jsonDumpsDict rest with
      | error e => rw [hv2] at h2; exact absurd h2 (by simp [exOk])
      | ok ps => rfl

end

/-- `_make_string`: lists, tuples and dicts go through `json.dumps`;
everything else through `str(...)`. -/
def make_string : PyValue → Except PyError (List Char)
  | .plist xs => jsonDumps (.plist xs)
  | .ptuple xs => jsonDumps (.ptuple xs)
  | .pdict kvs => jsonDumps (.pdict kvs)
  | .pstr s => .ok s
  | .pint n => .ok ((toString n).toList)
  | .pbool b => .ok (if b then ("True").toList else ("False").toList)
  | .pnone => .ok (("None").toList)
  | .pobj s => .ok s

/-- `_escape_data` on an arbitrary value: stringify, then the three
replacements. -/
def escape_data (v : PyValue) : Except PyError (List Char) :=
  (make_string v).map escape_data_str

/-- `_escape_property` on an arbitrary value: `_escape_data` plus the `:` and
`,` replacements. -/
def escape_property (v : PyValue) : Except PyError (List Char) :=
  (escape_data v).map
    (fun s => pyReplace ([',']) (['%', '2', 'C']) (pyReplace ([':']) (['%', '3', 'A']) s))

theorem escape_data_pstr (s : List Char) :
    escape_data (.pstr s) = .ok (escape_data_str s) := rfl

theorem escape_property_pstr (s : List Char) :
    escape_property (.pstr s) = .ok (escape_property_str s) := rfl

/-- The whole value can be coerced to text by `_make_string`: a sequence or
mapping must be JSON serializable, anything else goes through `str(...)`. -/
def coercible : PyValue → Bool
  | .plist xs => jsonOkList xs
  | .ptuple xs => jsonOkList xs
  | .pdict kvs => jsonOkDict kvs
  | _ => true

theorem make_string_isOk (v : PyValue) (h : coercible v = true) :
    exOk (make_string v) = true := by
  cases v with
  | plist xs =>
    simp only [make_string]
    exact jsonDumps_isOk _ (by simpa [jsonOk, coercible] using h)
  | ptuple xs =>
    simp only [make_string]
    exact jsonDumps_isOk _ (by simpa [jsonOk, coercible] using h)
  | pdict kvs =>
    simp only [make_string]
    exact jsonDumps_isOk _ (by simpa [jsonOk, coercible] using h)
  | pstr s => rfl
  | pint n => rfl
  | pbool b => rfl
  | pnone => rfl
  | pobj s => rfl

/-- C8 (counterexample): a list containing a non-JSON-serializable object
makes both escapers raise `TypeError` (from `json.dumps` inside
`_make_string`), so they are not total over every input value. -/
theorem c8_escaper_raises_counterexample :
    escape_data (PyValue.plist [PyValue.pobj (("<obj>").toList)]) =
        Except.error PyError.typeError ∧
      escape_property (PyValue.plist [PyValue.pobj (("<obj>").toList)]) =
        Except.error PyError.typeError := by
  constructor <;>
    · simp only [escape_data, escape_property, make_string, jsonDumps, jsonDumpsList]
      rfl

/-- C8 (amended): `_escape_data` and `_escape_property` are total on every
input whose sequence/mapping content is JSON serializable (strings, numbers,
booleans, `None`, arbitrary top-level objects via `str`, and lists, tuples
and dicts of serializable values); a sequence or mapping holding a
non-serializable object makes them raise `TypeError`, per the
counterexample. -/
theorem c8_escapers_total_on_serializable (v : PyValue) (h : coercible v = true) :
    exOk (escape_data v) = true ∧ exOk (escape_property v) = true := by
  have hm := make_string_isOk v h
  refine ⟨?_, ?_⟩
  · simpa [escape_data, exOk_map] using hm
  · simpa [escape_property, escape_data, exOk_map] using hm

/-- Witness for C8: a concrete serializable value. -/
theorem c8_escapers_total_witness :
    coercible (PyValue.plist [PyValue.pint 3, PyValue.pstr (("a").toList)]) = true ∧
      exOk (escape_data (PyValue.plist [PyValue.pint 3, PyValue.pstr (("a").toList)])) = true := by
  have hc : coercible (PyValue.plist [PyValue.pint 3, PyValue.pstr (("a").toList)]) = true := by
    simp [coercible, jsonOkList, jsonOk]
  exact ⟨hc,
    (c8_escapers_total_on_serializable
      (PyValue.plist [PyValue.pint 3, PyValue.pstr (("a").toList)]) hc).1⟩

/-- Python `str.title()` (ASCII letters): a letter is upper-cased when the
previous character is not a letter, lower-cased otherwise; other characters
pass through and reset the word boundary. -/
def pyTitleAux : Bool → List Char → List Char
  | _, [] => []
  | prevAlpha, c :: rest =>
    if c.isAlpha then
      (if prevAlpha then c.toLower else c.toUpper) :: pyTitleAux true rest
    else c :: pyTitleAux false rest

def pyTitle (s : List Char) : List Char := pyTitleAux false s

/-- `_to_camel_case`: `text[:1].lower() + text.title().replace("_", "")[1:]`. -/
def to_camel_case (text : List Char) : List Char :=
  (text.take 1).map Char.toLower ++ (pyReplace (['_']) ([]) (pyTitle text)).drop 1

/-- The `name=value` fragments of `_build_options_string`, skipping `None`
values, in declaration order. -/
def optionParts : List (List Char × Option PyValue) → Except PyError (List (List Char))
  | [] => .ok []
  | (_, Option.none) :: rest => optionParts rest
  | (k, Option.some v) :: rest => do
    let ev ← escape_property v
    let tl ← optionParts rest
    .ok ((to_camel_case k ++ ['='] ++ ev) :: tl)

/-- `_build_options_string`: camel-cased names, `_escape_property` values,
joined with commas. -/
def build_options_string (kwargs : List (List Char × Option PyValue)) :
    Except PyError (List Char) :=
  (optionParts kwargs).map (joinSep ([',']))

/-- The line built by `_print_command`:
`f"{COMMAND_MARKER}{command} {options_string or ''}{COMMAND_MARKER}{command_message}"`,
with the message escaped by `_escape_data` unless the caller opts out.
(Whether the line then goes through `print` or a subprocess `echo`, the same
single line is emitted.) -/
def print_command (command command_message options_string : List Char)
    (escape_message : Bool) : List Char :=
  let msg := if escape_message then escape_data_str command_message else command_message
  [':', ':'] ++ command ++ [' '] ++ options_string ++ [':', ':'] ++ msg

/-- `debug(message)`: `_print_command("debug", message, escape_message=False)`
with the default empty options string. -/
def debug (message : List Char) : List Char :=
  print_command (("debug").toList) message [] false

/-- `notice(...)`: the emitted line (message unescaped, options built from the
fixed keyword order `title, file, col, end_column, line, end_line`). -/
def notice (message : List Char)
    (title file col end_column line end_line : Option PyValue) :
    Except PyError (List Char) :=
  (build_options_string
    [ (("title").toList, title), (("file").toList, file), (("col").toList, col),
      (("end_column").toList, end_column), (("line").toList, line),
      (("end_line").toList, end_line)]).map
    (fun os => print_command (("notice").toList) message os false)

/-- `start_group(title)`: `_print_command("group", title, escape_message=False)`. -/
def start_group (title : List Char) : List Char :=
  print_command (("group").toList) title [] false

/-- The line emitted by `end_group()`. -/
def endgroup_line : List Char := ("::endgroup::").toList

/-- The `group(title)` context manager, modelled on the generator semantics of
`contextlib.contextmanager`: the wrapped operation is summarised by the lines
it emits and whether it raises.  The source has no `try/finally` around the
`yield`, so when the body raises, the exception is thrown into the generator
at the `yield` point, the code after `yield` never runs, and no end-group line
is emitted; the pair's boolean records the propagating exception. -/
def group_run (title : List Char) (body : List (List Char) × Bool) :
    List (List Char) × Bool :=
  if body.2 then (start_group title :: body.1, true)
  else (start_group title :: body.1 ++ [endgroup_line], false)

/-- Python truthiness test used by `if not token:`: both `None` and the empty
string are falsy. -/
def token_falsy : Option (List Char) → Bool
  | Option.none => true
  | Option.some s => s.isEmpty

/-- `begin_stop_commands(token)`: replaces a falsy token by a fresh
`str(uuid.uuid1())` (supplied here as the `fresh_uuid` oracle), emits the
stop-commands line carrying the chosen token, and returns that token. -/
def begin_stop_commands (fresh_uuid : List Char) (token : Option (List Char)) :
    List Char × List Char :=
  let t := if token_falsy token then fresh_uuid else token.getD []
  (print_command (("stop-commands").toList) t [] false, t)

/-- The line emitted by `end_stop_commands(token)`:
`f"{COMMAND_MARKER}{token}{COMMAND_MARKER}"`. -/
def end_stop_commands (token : List Char) : List Char :=
  [':', ':'] ++ token ++ [':', ':']

/-- The `stop_commands(token)` context manager; same generator semantics as
`group_run` (no `try/finally`), with the begin call's returned token passed to
`end_stop_commands` on normal exit. -/
def stop_commands_run (fresh_uuid : List Char) (token : Option (List Char))
    (body : List (List Char) × Bool) : List (List Char) × Bool :=
  let bt := begin_stop_commands fresh_uuid token
  if body.2 then (bt.1 :: body.1, true)
  else (bt.1 :: body.1 ++ [end_stop_commands bt.2], false)

/-- C1 (the code violates the claim): on normal exit `group` emits exactly a
begin line then an end line, but when the wrapped operation raises, the
missing `try/finally` means no `::endgroup::` line (resp. no end-stop line) is
emitted at all, contradicting the guaranteed-closing claim. -/
theorem c1_group_stop_end_skipped_on_raise :
    group_run (("My title").toList) ([], false) =
        ([start_group (("My title").toList), endgroup_line], false) ∧
      group_run (("My title").toList) ([(("partial output").toList)], true) =
        ([start_group (("My title").toList), (("partial output").toList)], true) ∧
      endgroup_line ∉ (group_run (("My title").toList) ([(("partial output").toList)], true)).1 ∧
      stop_commands_run (("b9d5dcb4-0f07-11ef").toList) Option.none ([], true) =
        ([print_command (("stop-commands").toList) (("b9d5dcb4-0f07-11ef").toList) [] false],
          true) ∧
      end_stop_commands (("b9d5dcb4-0f07-11ef").toList) ∉
        (stop_commands_run (("b9d5dcb4-0f07-11ef").toList) Option.none ([], true)).1 := by
  refine ⟨rfl, rfl, by decide, rfl, by decide⟩

/-- C4 (the code violates the claim): with an empty options string the line is
`::debug ::message` — `_print_command` always inserts a space after the
command name — and not the documented `::debug::message`. -/
theorem c4_print_command_space_bug :
    debug (("Set the Octocat variable").toList) =
        (("::debug ::Set the Octocat variable").toList) ∧
      debug (("Set the Octocat variable").toList) ≠
        (("::debug::Set the Octocat variable").toList) :=
  ⟨rfl, by decide⟩

/-- C5: the notice builder called with
`message="Missing semicolon", file="app.js", line=1, col=5, end_column=7`
emits exactly `::notice file=app.js,col=5,endColumn=7,line=1::Missing semicolon`
(camel-cased names, absent options omitted, declared order, message
unescaped). -/
theorem c5_notice_exact_line :
    notice (("Missing semicolon").toList) Option.none
        (Option.some (.pstr (("app.js").toList))) (Option.some (.pint 5))
        (Option.some (.pint 7)) (Option.some (.pint 1)) Option.none =
      Except.ok (("::notice file=app.js,col=5,endColumn=7,line=1::Missing semicolon").toList) := by
  rfl

/-- C10: a `None` or empty-string token is replaced by the freshly generated
UUID string, which is both emitted in the begin line and returned; a non-empty
caller token is used as-is; and the emitted token is never the empty string
(the UUID string is non-empty). -/
theorem c10_stop_token_fallback (u s : List Char) (tok : Option (List Char))
    (hu : u ≠ []) (hs : s ≠ []) :
    begin_stop_commands u Option.none =
        (print_command (("stop-commands").toList) u [] false, u) ∧
      begin_stop_commands u (Option.some []) =
        (print_command (("stop-commands").toList) u [] false, u) ∧
      begin_stop_commands u (Option.some s) =
        (print_command (("stop-commands").toList) s [] false, s) ∧
      (begin_stop_commands u tok).2 ≠ [] ∧
      stop_commands_run u (Option.some []) ([], false) =
        ([print_command (("stop-commands").toList) u [] false, end_stop_commands u], false) := by
  refine ⟨rfl, rfl, ?_, ?_, rfl⟩
  · cases s with
    | nil => exact absurd rfl hs
    | cons c t => rfl
  · cases tok with
    | none => simpa [begin_stop_commands, token_falsy] using hu
    | some s' =>
      cases s' with
      | nil => simpa [begin_stop_commands, token_falsy] using hu
      | cons c t => simp [begin_stop_commands, token_falsy]

/-- Witness for C10 at concrete inputs. -/
theorem c10_stop_token_fallback_witness :
    begin_stop_commands (("f47ac10b-58cc-11ee").toList) Option.none =
        (print_command (("stop-commands").toList) (("f47ac10b-58cc-11ee").toList) [] false,
          (("f47ac10b-58cc-11ee").toList)) ∧
      (begin_stop_commands (("f47ac10b-58cc-11ee").toList) (Option.some [])).2 ≠ [] :=
  ⟨(c10_stop_token_fallback (("f47ac10b-58cc-11ee").toList) (("tok").toList)
      (Option.some []) (by decide) (by decide)).1,
   (c10_stop_token_fallback (("f47ac10b-58cc-11ee").toList) (("tok").toList)
      (Option.some []) (by decide) (by decide)).2.2.2.1⟩

/-- The module-level block delimiter token. -/
def ACTION_ENV_DELIMITER : List Char := ("__ENV_DELIMITER__").toList

/-- The header marker scanned for by the reader:
`f"<<{ACTION_ENV_DELIMITER}"`. -/
def env_marker : List Char := ['<', '<'] ++ ACTION_ENV_DELIMITER

/-- The characters stripped by Python `str.strip()` with no argument
(the ASCII and latin-1 portion of `str.isspace`; the claims below restrict
keys and values to ASCII, where this is exact). -/
def isPySpace (c : Char) : Bool :=
  decide ((9 ≤ c.toNat ∧ c.toNat ≤ 13) ∨ (28 ≤ c.toNat ∧ c.toNat ≤ 32) ∨
    c.toNat = 133 ∨ c.toNat = 160)

/-- Python `s.strip()`: drop leading and trailing whitespace. -/
def pyStrip (s : List Char) : List Char :=
  (((s.dropWhile isPySpace).reverse).dropWhile isPySpace).reverse

/-- Iterating a binary file line by line: lines are split after each `\n`
(which stays attached to its line); a final chunk without a trailing newline
is still one line; an empty file yields no lines. -/
def splitLines : List Char → List (List Char)
  | [] => []
  | c :: rest =>
    if c = '\n' then ['\n'] :: splitLines rest
    else
      match splitLines rest with
      | [] => [[c]]
      | l :: ls => (c :: l) :: ls

/-- The process environment (`os.environ`), as an association list. -/
abbrev Env := List (String × String)

/-- The file system: path to file content. -/
abbrev FS := List (String × List Char)

/-- Opening a file in append mode and writing `data` (the file is created
when absent). -/
def appendFile (fs : FS) (p : String) (data : List Char) : FS :=
  match fs with
  | [] => [(p, data)]
  | q :: rest => if q.1 = p then (p, q.2 ++ data) :: rest else q :: appendFile rest p data

/-- `_build_file_input(name, value)`:
`f"{_escape_property(name)}<<{ACTION_ENV_DELIMITER}\n{_escape_data(value)}\n{ACTION_ENV_DELIMITER}\n"`. -/
def build_file_input (name : List Char) (value : PyValue) : Except PyError (List Char) :=
  (escape_data value).map (fun ev =>
    escape_property_str name ++ env_marker ++ ['\n'] ++ ev ++ ['\n'] ++
      ACTION_ENV_DELIMITER ++ ['\n'])

/-- `_build_file_input` specialised to a string value. -/
def build_file_input_str (name value : List Char) : List Char :=
  escape_property_str name ++ env_marker ++ ['\n'] ++ escape_data_str value ++ ['\n'] ++
    ACTION_ENV_DELIMITER ++ ['\n']

theorem build_file_input_pstr (name v : List Char) :
    build_file_input name (.pstr v) = .ok (build_file_input_str name v) := rfl

/-- `set_output`: append one block to the file named by `GITHUB_OUTPUT`;
a missing variable raises `KeyError` before anything is written. -/
def set_output (env : Env) (fs : FS) (name : List Char) (value : PyValue) :
    Except PyError FS :=
  match List.lookup ("GITHUB_OUTPUT") env with
  | Option.none => .error .keyError
  | Option.some p => (build_file_input name value).map (appendFile fs p)

/-- `save_state`: same, against `GITHUB_STATE`. -/
def save_state (env : Env) (fs : FS) (name : List Char) (value : PyValue) :
    Except PyError FS :=
  match List.lookup ("GITHUB_STATE") env with
  | Option.none => .error .keyError
  | Option.some p => (build_file_input name value).map (appendFile fs p)

/-- `set_env`: same, against `GITHUB_ENV`. -/
def set_env (env : Env) (fs : FS) (name : List Char) (value : PyValue) :
    Except PyError FS :=
  match List.lookup ("GITHUB_ENV") env with
  | Option.none => .error .keyError
  | Option.some p => (build_file_input name value).map (appendFile fs p)

/-- Python dict assignment `d[k] = v`: update in place when the key exists,
append otherwise. -/
def dictInsert (d : List (List Char × List Char)) (k v : List Char) :
    List (List Char × List Char) :=
  match d with
  | [] => [(k, v)]
  | p :: rest => if p.1 = k then (k, v) :: rest else p :: dictInsert rest k v

/-- Python dict lookup (first matching key; keys are unique by
construction). -/
def dictLookup (k : List Char) : List (List Char × List Char) → Option (List Char)
  | [] => Option.none
  | p :: rest => if p.1 = k then Option.some p.2 else dictLookup k rest

/-- The `for line in file:` loop body of `get_workflow_environment_variables`,
carrying the dict built so far and the current binding of the Python local
variables `name`/`decoded_value` (unbound at loop entry).  A header line binds
them from the header and the `next(file)` value line (a missing value line is
the `StopIteration` / `break` path); every iteration that completes performs
the trailing `environment_variable_dict[name] = decoded_value` assignment,
which raises `UnboundLocalError` when no header has been seen yet. -/
def read_env_lines (d : List (List Char × List Char))
    (b : Option (List Char × List Char)) :
    List (List Char) → Except PyError (List (List Char × List Char))
  | [] => .ok d
  | line :: rest =>
    if containsSub env_marker line = true then
      match rest with
      | [] => .ok d
      | vline :: rest2 =>
        let k := takeBeforeSub (['<', '<']) (pyStrip line)
        let v := pyStrip vline
        read_env_lines (dictInsert d k v) (Option.some (k, v)) rest2
    else
      match b with
      | Option.none => .error .unboundLocalError
      | Option.some p => read_env_lines (dictInsert d p.1 p.2) (Option.some p) rest

/-- `get_workflow_environment_variables()`: empty dict when `GITHUB_ENV` is
unset, otherwise parse the file named by it. -/
def get_workflow_environment_variables (env : Env) (fs : FS) :
    Except PyError (List (List Char × List Char)) :=
  match List.lookup ("GITHUB_ENV") env with
  | Option.none => .ok []
  | Option.some p =>
    match List.lookup p fs with
    | Option.none => .error .fileNotFoundError
    | Option.some content => read_env_lines [] Option.none (splitLines content)

/-- Writing a sequence of key/value pairs with `set_env`, in order. -/
def writeEnvPairs (env : Env) (fs : FS) :
    List (List Char × List Char) → Except PyError FS
  | [] => .ok fs
  | p :: rest =>
    match set_env env fs p.1 (.pstr p.2) with
    | .error e => .error e
    | .ok fs2 => writeEnvPairs env fs2 rest

/-- Folding dict assignments over a pair list, from a given dict. -/
def lastWinsFold (d : List (List Char × List Char))
    (pairs : List (List Char × List Char)) : List (List Char × List Char) :=
  pairs.foldl (fun d p => dictInsert d p.1 p.2) d

/-- The mapping described by the specification: every pair assigned in order
into an initially empty dict, so the last write to a key wins. -/
def lastWinsDict (pairs : List (List Char × List Char)) : List (List Char × List Char) :=
  lastWinsFold [] pairs

/-- The file content after writing each pair as a block. -/
def envContent : List (List Char × List Char) → List Char
  | [] => []
  | p :: rest => build_file_input_str p.1 p.2 ++ envContent rest

/-- A block header line as it sits in the file. -/
def hdrLine (k : List Char) : List Char := k ++ env_marker ++ ['\n']

/-- A block value line. -/
def valLine (v : List Char) : List Char := v ++ ['\n']

/-- A block terminator line. -/
def delimLine : List Char := ACTION_ENV_DELIMITER ++ ['\n']

/-- The lines of a sequence of clean blocks. -/
def blockTriples : List (List Char × List Char) → List (List Char)
  | [] => []
  | p :: rest => hdrLine p.1 :: valLine p.2 :: delimLine :: blockTriples rest

/-- The `name`/`decoded_value` binding left behind after reading a sequence
of complete blocks. -/
def boundAfter (b : Option (List Char × List Char)) :
    List (List Char × List Char) → Option (List Char × List Char)
  | [] => b
  | p :: rest => boundAfter (Option.some p) rest

/-- A key that the write/read pipeline transports verbatim: ASCII, untouched
by `_escape_property`, free of the `<<` marker and of whitespace. -/
def cleanKey (k : List Char) : Prop :=
  ∀ c ∈ k, c ≠ '%' ∧ c ≠ ':' ∧ c ≠ ',' ∧ c ≠ '<' ∧ isPySpace c = false ∧ c.toNat < 128

/-- A value that the pipeline transports verbatim: ASCII, untouched by
`_escape_data`, and with no leading or trailing whitespace for `strip()` to
eat (interior whitespace other than line breaks is fine). -/
def cleanVal (v : List Char) : Prop :=
  (∀ c ∈ v, c ≠ '%' ∧ c ≠ '\r' ∧ c ≠ '\n' ∧ c.toNat < 128) ∧
    (∀ c, v.head? = Option.some c → isPySpace c = false) ∧
    (∀ c, v.getLast? = Option.some c → isPySpace c = false)

instance cleanKey_decidable (k : List Char) : Decidable (cleanKey k) := by
  unfold cleanKey
  infer_instance

instance cleanVal_decidable (v : List Char) : Decidable (cleanVal v) := by
  unfold cleanVal
  infer_instance

theorem mem_of_head?_eq (l : List Char) (c : Char) (h : l.head? = Option.some c) :
    c ∈ l := by
  cases l with
  | nil => exact absurd h (by simp)
  | cons a rest =>
    simp only [List.head?_cons, Option.some.injEq] at h
    simp [h]

theorem mem_of_getLast?_eq (l : List Char) (c : Char) (h : l.getLast? = Option.some c) :
    c ∈ l := by
  rw [← List.head?_reverse] at h
  exact List.mem_reverse.mp (mem_of_head?_eq _ _ h)

theorem dropWhile_eq_self_of_head (p : Char → Bool) (l : List Char)
    (h : ∀ c, l.head? = Option.some c → p c = false) : l.dropWhile p = l := by
  cases l with
  | nil => rfl
  | cons c rest => simp [List.dropWhile_cons, h c rfl]

theorem pyStrip_append_nl (xs : List Char)
    (hhead : ∀ c, xs.head? = Option.some c → isPySpace c = false)
    (hlast : ∀ c, xs.getLast? = Option.some c → isPySpace c = false) :
    pyStrip (xs ++ ['\n']) = xs := by
  cases xs with
  | nil => rfl
  | cons c rest =>
    have hc : isPySpace c = false := hhead c rfl
    have h1 : List.dropWhile isPySpace ((c :: rest) ++ ['\n']) = (c :: rest) ++ ['\n'] := by
      rw [List.cons_append, List.dropWhile_cons, hc]
      simp
    have h2 : pyStrip ((c :: rest) ++ ['\n']) =
        (('\n' :: (c :: rest).reverse).dropWhile isPySpace).reverse := by
      unfold pyStrip
      rw [h1, List.reverse_append]
      rfl
    rw [h2, List.dropWhile_cons]
    rw [show isPySpace ('\n') = true from by decide]
    simp only [if_pos]
    rw [dropWhile_eq_self_of_head _ _
      (fun d hd => hlast d (by rwa [List.head?_reverse] at hd))]
    exact List.reverse_reverse _

theorem pyStrip_append_nl_of_nonspace (xs : List Char)
    (h : ∀ c ∈ xs, isPySpace c = false) : pyStrip (xs ++ ['\n']) = xs :=
  pyStrip_append_nl xs (fun c hc => h c (mem_of_head?_eq _ _ hc))
    (fun c hc => h c (mem_of_getLast?_eq _ _ hc))

theorem listStartsWith_self_append (pat b : List Char) :
    listStartsWith pat (pat ++ b) = true := by
  induction pat with
  | nil => rfl
  | cons p ps ih => simpa [listStartsWith] using ih

theorem containsSub_cons_of (pat : List Char) (c : Char) (t : List Char)
    (h : containsSub pat t = true) : containsSub pat (c :: t) = true := by
  simp [containsSub, h]

theorem containsSub_self_append (pat b : List Char) :
    containsSub pat (pat ++ b) = true := by
  cases pat with
  | nil => cases b <;> simp [containsSub, listStartsWith]
  | cons p ps =>
    show containsSub (p :: ps) (p :: (ps ++ b)) = true
    have := listStartsWith_self_append (p :: ps) b
    simp only [containsSub]
    rw [show (p :: ps) ++ b = p :: (ps ++ b) from rfl] at this
    simp [this]

theorem containsSub_append_left (pat a t : List Char)
    (h : containsSub pat t = true) : containsSub pat (a ++ t) = true := by
  induction a with
  | nil => simpa using h
  | cons c rest ih => exact containsSub_cons_of pat c (rest ++ t) ih

theorem takeBeforeSub_marker (k t : List Char) (hk : ∀ c ∈ k, c ≠ '<') :
    takeBeforeSub (['<', '<']) (k ++ '<' :: '<' :: t) = k := by
  induction k with
  | nil =>
    simp only [List.nil_append, takeBeforeSub]
    rw [if_pos (by simp [listStartsWith])]
  | cons c rest ih =>
    have hc : c ≠ '<' := hk c (by simp)
    simp only [List.cons_append, takeBeforeSub, List.append_eq]
    rw [if_neg (by simp [listStartsWith, Ne.symm hc])]
    rw [ih (fun d hd => hk d (by simp [hd]))]

theorem splitLines_newline_append (xs rest : List Char) (h : '\n' ∉ xs) :
    splitLines (xs ++ '\n' :: rest) = (xs ++ ['\n']) :: splitLines rest := by
  induction xs with
  | nil =>
    simp only [List.nil_append]
    rw [splitLines.eq_def]
    simp
  | cons c xs' ih =>
    have hc : c ≠ '\n' := fun hc => h (by simp [hc])
    simp only [List.cons_append]
    rw [splitLines.eq_def]
    simp only [if_neg hc]
    rw [ih (fun hm => h (by simp [hm]))]

theorem splitLines_no_newline (xs : List Char) (h : '\n' ∉ xs) (hne : xs ≠ []) :
    splitLines xs = [xs] := by
  induction xs with
  | nil => exact absurd rfl hne
  | cons c xs' ih =>
    have hc : c ≠ '\n' := fun hc => h (by simp [hc])
    rw [splitLines.eq_def]
    simp only [if_neg hc]
    cases hxs : xs' with
    | nil => simp [splitLines]
    | cons d t =>
      rw [← hxs, ih (fun hm => h (by simp [hm])) (by simp [hxs])]

theorem cleanKey_no_cr_lf (k : List Char) (hk : cleanKey k) :
    ∀ c ∈ k, c ≠ '%' ∧ c ≠ '\r' ∧ c ≠ '\n' ∧ c ≠ ':' ∧ c ≠ ',' := by
  intro c hc
  obtain ⟨h1, h2, h3, _, h5, _⟩ := hk c hc
  refine ⟨h1, ?_, ?_, h2, h3⟩
  · intro heq; subst heq; exact absurd h5 (by decide)
  · intro heq; subst heq; exact absurd h5 (by decide)

theorem escape_property_str_cleanKey (k : List Char) (hk : cleanKey k) :
    escape_property_str k = k :=
  escape_property_str_id k (cleanKey_no_cr_lf k hk)

theorem escape_data_str_cleanVal (v : List Char) (hv : cleanVal v) :
    escape_data_str v = v :=
  escape_data_str_id v (fun c hc => (hv.1 c hc).imp id (fun h => ⟨h.1, h.2.1⟩))

theorem env_marker_nonspace : ∀ c ∈ env_marker, isPySpace c = false := by decide

theorem lf_not_mem_env_marker : ('\n') ∉ env_marker := by decide

theorem lf_not_mem_delim : ('\n') ∉ ACTION_ENV_DELIMITER := by decide

theorem cleanKey_lf_free (k : List Char) (hk : cleanKey k) : ('\n') ∉ k := by
  intro hm
  exact absurd (hk _ hm).2.2.2.2.1 (by decide)

theorem splitLines_block (k v tail : List Char) (hk : cleanKey k) (hv : cleanVal v) :
    splitLines (build_file_input_str k v ++ tail) =
      hdrLine k :: valLine v :: delimLine :: splitLines tail := by
  have hbfi : build_file_input_str k v ++ tail =
      (k ++ env_marker) ++ '\n' :: (v ++ '\n' :: (ACTION_ENV_DELIMITER ++ '\n' :: tail)) := by
    unfold build_file_input_str
    rw [escape_property_str_cleanKey k hk, escape_data_str_cleanVal v hv]
    simp [List.append_assoc]
  rw [hbfi]
  rw [splitLines_newline_append _ _ (by
    intro hm
    rcases List.mem_append.mp hm with h | h
    · exact cleanKey_lf_free k hk h
    · exact lf_not_mem_env_marker h)]
  rw [splitLines_newline_append _ _ (fun hm => absurd (hv.1 _ hm).2.2.1 (by simp))]
  rw [splitLines_newline_append _ _ lf_not_mem_delim]
  rw [hdrLine, valLine, delimLine]

theorem splitLines_envContent_append (pairs : List (List Char × List Char))
    (tail : List Char) (h : ∀ p ∈ pairs, cleanKey p.1 ∧ cleanVal p.2) :
    splitLines (envContent pairs ++ tail) = blockTriples pairs ++ splitLines tail := by
  induction pairs with
  | nil => rfl
  | cons p rest ih =>
    show splitLines ((build_file_input_str p.1 p.2 ++ envContent rest) ++ tail) = _
    rw [List.append_assoc,
      splitLines_block p.1 p.2 _ (h p (by simp)).1 (h p (by simp)).2,
      ih (fun q hq => h q (by simp [hq]))]
    rfl

theorem pyStrip_hdrLine (k : List Char) (hk : cleanKey k) :
    pyStrip (hdrLine k) = k ++ env_marker := by
  rw [hdrLine]
  exact pyStrip_append_nl_of_nonspace _ (by
    intro c hc
    rcases List.mem_append.mp hc with h | h
    · exact (hk c h).2.2.2.2.1
    · exact env_marker_nonspace c h)

theorem name_of_hdrLine (k : List Char) (hk : cleanKey k) :
    takeBeforeSub (['<', '<']) (pyStrip (hdrLine k)) = k := by
  rw [pyStrip_hdrLine k hk]
  rw [show k ++ env_marker = k ++ '<' :: '<' :: ACTION_ENV_DELIMITER from rfl]
  exact takeBeforeSub_marker k ACTION_ENV_DELIMITER (fun c hc => (hk c hc).2.2.2.1)

theorem pyStrip_valLine (v : List Char) (hv : cleanVal v) :
    pyStrip (valLine v) = v :=
  pyStrip_append_nl v hv.2.1 hv.2.2

theorem containsSub_hdrLine (k : List Char) :
    containsSub env_marker (hdrLine k) = true := by
  rw [hdrLine, List.append_assoc]
  exact containsSub_append_left _ k _ (containsSub_self_append env_marker _)

theorem not_containsSub_delimLine : containsSub env_marker delimLine = false := by decide

theorem dictInsert_idem (d : List (List Char × List Char)) (k v : List Char) :
    dictInsert (dictInsert d k v) k v = dictInsert d k v := by
  induction d with
  | nil => simp [dictInsert]
  | cons p rest ih =>
    by_cases hp : p.1 = k
    · simp [dictInsert, hp]
    · simp [dictInsert, hp, ih]

theorem read_env_lines_blocks (pairs : List (List Char × List Char))
    (extra : List (List Char)) (d : List (List Char × List Char))
    (b : Option (List Char × List Char))
    (h : ∀ p ∈ pairs, cleanKey p.1 ∧ cleanVal p.2) :
    read_env_lines d b (blockTriples pairs ++ extra) =
      read_env_lines (lastWinsFold d pairs) (boundAfter b pairs) extra := by
  induction pairs generalizing d b with
  | nil => rfl
  | cons p rest ih =>
    obtain ⟨hk, hv⟩ := h p (by simp)
    show read_env_lines d b
        (hdrLine p.1 :: valLine p.2 :: delimLine :: (blockTriples rest ++ extra)) = _
    rw [read_env_lines.eq_def]
    simp only [containsSub_hdrLine p.1, if_pos]
    rw [name_of_hdrLine p.1 hk, pyStrip_valLine p.2 hv]
    rw [read_env_lines.eq_def]
    simp only [not_containsSub_delimLine, Bool.false_eq_true, if_neg]
    rw [dictInsert_idem]
    rw [ih (dictInsert d p.1 p.2) (Option.some (p.1, p.2)) (fun q hq => h q (by simp [hq]))]
    rfl

/-- First-some choice on options (shape of assoc-list lookups over `++`). -/
def optOr {α : Type} (a b : Option α) : Option α :=
  match a with
  | Option.some v => Option.some v
  | Option.none => b

theorem optOr_assoc {α : Type} (a b c : Option α) :
    optOr (optOr a b) c = optOr a (optOr b c) := by
  cases a <;> rfl

theorem optOr_none_right {α : Type} (a : Option α) : optOr a Option.none = a := by
  cases a <;> rfl

theorem dictLookup_append (k : List Char) (a b : List (List Char × List Char)) :
    dictLookup k (a ++ b) = optOr (dictLookup k a) (dictLookup k b) := by
  induction a with
  | nil => rfl
  | cons p rest ih =>
    by_cases hp : p.1 = k
    · simp [dictLookup, hp, optOr]
    · simp [dictLookup, hp, ih]

theorem dictLookup_insert (d : List (List Char × List Char)) (k v k' : List Char) :
    dictLookup k' (dictInsert d k v) =
      if k = k' then Option.some v else dictLookup k' d := by
  induction d with
  | nil => simp [dictInsert, dictLookup]
  | cons p rest ih =>
    by_cases hp : p.1 = k
    · by_cases hk : k = k'
      · simp [dictInsert, dictLookup, hp, hk]
      · simp [dictInsert, dictLookup, hp, hk]
    · by_cases hpk : p.1 = k'
      · have hk : k ≠ k' := fun h => hp (h ▸ hpk)
        simp [dictInsert, dictLookup, hp, hpk, hk, Ne.symm hk]
      · simp [dictInsert, dictLookup, hp, hpk, ih]

theorem dictLookup_lastWinsFold (pairs : List (List Char × List Char))
    (d : List (List Char × List Char)) (k : List Char) :
    dictLookup k (lastWinsFold d pairs) =
      optOr (dictLookup k pairs.reverse) (dictLookup k d) := by
  induction pairs generalizing d with
  | nil => rfl
  | cons p rest ih =>
    show dictLookup k (lastWinsFold (dictInsert d p.1 p.2) rest) = _
    rw [ih]
    rw [show (p :: rest).reverse = rest.reverse ++ [p] from by simp]
    rw [dictLookup_append, optOr_assoc]
    congr 1
    rw [dictLookup_insert]
    by_cases hp : p.1 = k <;> simp [dictLookup, optOr, hp]

theorem dictLookup_eq_none_of_not_mem (l : List (List Char × List Char)) (k : List Char)
    (h : k ∉ l.map Prod.fst) : dictLookup k l = Option.none := by
  induction l with
  | nil => rfl
  | cons p rest ih =>
    have hp : p.1 ≠ k := fun he => h (by simp [he])
    simp [dictLookup, hp, ih (fun hm => h (by simp [hm]))]

/-- The keys of an association list, in order. -/
def dictKeys (d : List (List Char × List Char)) : List (List Char) := d.map Prod.fst

theorem dictKeys_insert (d : List (List Char × List Char)) (k v : List Char) :
    dictKeys (dictInsert d k v) =
      if k ∈ dictKeys d then dictKeys d else dictKeys d ++ [k] := by
  induction d with
  | nil => simp [dictInsert, dictKeys]
  | cons p rest ih =>
    by_cases hp : p.1 = k
    · have hmem : k ∈ dictKeys (p :: rest) := by simp [dictKeys, hp]
      rw [if_pos hmem]
      simp [dictInsert, dictKeys, hp]
    · have hne : k ≠ p.1 := fun h => hp h.symm
      have hcond : (k ∈ dictKeys (p :: rest)) ↔ (k ∈ dictKeys rest) := by
        simp [dictKeys, hne]
      rw [show dictInsert (p :: rest) k v = p :: dictInsert rest k v
        from by simp [dictInsert, hp]]
      by_cases hk : k ∈ dictKeys rest
      · rw [if_pos (hcond.mpr hk)]
        show p.1 :: dictKeys (dictInsert rest k v) = p.1 :: dictKeys rest
        rw [ih, if_pos hk]
      · rw [if_neg (fun hmem => hk (hcond.mp hmem))]
        show p.1 :: dictKeys (dictInsert rest k v) = p.1 :: (dictKeys rest ++ [k])
        rw [ih, if_neg hk]

theorem dictKeys_nodup_insert (d : List (List Char × List Char)) (k v : List Char)
    (h : (dictKeys d).Nodup) : (dictKeys (dictInsert d k v)).Nodup := by
  rw [dictKeys_insert]
  by_cases hk : k ∈ dictKeys d
  · simp [hk, h]
  · simp [hk, List.nodup_append, h, List.disjoint_singleton]

theorem dictKeys_toFinset_insert (d : List (List Char × List Char)) (k v : List Char) :
    (dictKeys (dictInsert d k v)).toFinset = insert k (dictKeys d).toFinset := by
  rw [dictKeys_insert]
  by_cases hk : k ∈ dictKeys d
  · rw [if_pos hk]
    exact (Finset.insert_eq_self.mpr (List.mem_toFinset.mpr hk)).symm
  · rw [if_neg hk]
    ext x
    simp [or_comm]

theorem lastWinsFold_keys_nodup (pairs : List (List Char × List Char))
    (d : List (List Char × List Char)) (h : (dictKeys d).Nodup) :
    (dictKeys (lastWinsFold d pairs)).Nodup := by
  induction pairs generalizing d with
  | nil => exact h
  | cons p rest ih => exact ih _ (dictKeys_nodup_insert d p.1 p.2 h)

theorem lastWinsFold_keys_toFinset (pairs : List (List Char × List Char))
    (d : List (List Char × List Char)) :
    (dictKeys (lastWinsFold d pairs)).toFinset =
      (dictKeys d).toFinset ∪ (pairs.map Prod.fst).toFinset := by
  induction pairs generalizing d with
  | nil => simp [lastWinsFold]
  | cons p rest ih =>
    show (dictKeys (lastWinsFold (dictInsert d p.1 p.2) rest)).toFinset = _
    rw [ih, dictKeys_toFinset_insert]
    ext x
    simp

theorem lastWinsDict_length (pairs : List (List Char × List Char)) :
    (lastWinsDict pairs).length = (pairs.map Prod.fst).dedup.length := by
  have hnodup : (dictKeys (lastWinsDict pairs)).Nodup :=
    lastWinsFold_keys_nodup pairs [] (by simp [dictKeys])
  have hfin : (dictKeys (lastWinsDict pairs)).toFinset = (pairs.map Prod.fst).toFinset := by
    rw [lastWinsDict, lastWinsFold_keys_toFinset]
    simp [dictKeys]
  have h1 : (lastWinsDict pairs).length = (dictKeys (lastWinsDict pairs)).length := by
    simp [dictKeys]
  rw [h1, ← List.toFinset_card_of_nodup hnodup, hfin, List.card_toFinset]

theorem set_env_single_file (env : Env) (path : String) (pre : List Char)
    (k v : List Char) (henv : List.lookup ("GITHUB_ENV") env = Option.some path) :
    set_env env [(path, pre)] k (.pstr v) =
      .ok [(path, pre ++ build_file_input_str k v)] := by
  unfold set_env
  rw [henv, build_file_input_pstr]
  simp [Except.map, appendFile]

theorem writeEnvPairs_single (env : Env) (path : String) (pre : List Char)
    (pairs : List (List Char × List Char))
    (henv : List.lookup ("GITHUB_ENV") env = Option.some path) :
    writeEnvPairs env [(path, pre)] pairs = .ok [(path, pre ++ envContent pairs)] := by
  induction pairs generalizing pre with
  | nil => simp [writeEnvPairs, envContent]
  | cons p rest ih =>
    simp only [writeEnvPairs]
    rw [set_env_single_file env path pre p.1 p.2 henv]
    show writeEnvPairs env [(path, pre ++ build_file_input_str p.1 p.2)] rest = _
    rw [ih (pre ++ build_file_input_str p.1 p.2)]
    rw [envContent, List.append_assoc]

theorem writeEnvPairs_ok (env : Env) (path : String)
    (pairs : List (List Char × List Char))
    (henv : List.lookup ("GITHUB_ENV") env = Option.some path) (hne : pairs ≠ []) :
    writeEnvPairs env [] pairs = .ok [(path, envContent pairs)] := by
  cases pairs with
  | nil => exact absurd rfl hne
  | cons p rest =>
    have hse : set_env env [] p.1 (.pstr p.2) =
        .ok [(path, build_file_input_str p.1 p.2)] := by
      unfold set_env
      rw [henv, build_file_input_pstr]
      rfl
    simp only [writeEnvPairs]
    rw [hse]
    show writeEnvPairs env [(path, build_file_input_str p.1 p.2)] rest = _
    exact writeEnvPairs_single env path _ rest henv

theorem getWE_eq_parse (env : Env) (fs : FS) (path : String) (content : List Char)
    (henv : List.lookup ("GITHUB_ENV") env = Option.some path)
    (hfs : List.lookup path fs = Option.some content) :
    get_workflow_environment_variables env fs =
      read_env_lines [] Option.none (splitLines content) := by
  unfold get_workflow_environment_variables
  rw [henv]
  show (match List.lookup path fs with
    | Option.none => Except.error PyError.fileNotFoundError
    | Option.some content => read_env_lines [] Option.none (splitLines content)) =
      read_env_lines [] Option.none (splitLines content)
  rw [hfs]

theorem getWE_written (env : Env) (path : String)
    (pairs : List (List Char × List Char))
    (henv : List.lookup ("GITHUB_ENV") env = Option.some path)
    (hclean : ∀ p ∈ pairs, cleanKey p.1 ∧ cleanVal p.2) :
    get_workflow_environment_variables env [(path, envContent pairs)] =
      .ok (lastWinsDict pairs) := by
  rw [getWE_eq_parse env _ path (envContent pairs) henv (by simp [List.lookup])]
  have hsplit : splitLines (envContent pairs) = blockTriples pairs := by
    have h := splitLines_envContent_append pairs [] hclean
    simpa [splitLines] using h
  rw [hsplit]
  have h := read_env_lines_blocks pairs [] [] Option.none hclean
  simpa [lastWinsDict] using h

/-- C2 (amended): writing N ≥ 1 clean key/value pairs (ASCII keys without
`% : , <` or whitespace; ASCII values without `% \r \n` and without leading or
trailing whitespace; duplicate keys allowed) through `set_env` and reading
them back yields the last-write-wins mapping: its size is the number of
distinct keys and each key maps to its last written value.  The cleanliness
hypotheses are forced by the counterexample: the reader `strip()`s each value
line, and escaping rewrites `%`, `\r`, `\n` (and `: ,` and `<<` in keys), so a
pair such as `("A", " v ")` does not read back unchanged. -/
theorem c2_setenv_roundtrip_lastwins (env : Env) (path : String)
    (pairs : List (List Char × List Char))
    (henv : List.lookup ("GITHUB_ENV") env = Option.some path)
    (hclean : ∀ p ∈ pairs, cleanKey p.1 ∧ cleanVal p.2)
    (hne : pairs ≠ []) :
    writeEnvPairs env [] pairs = .ok [(path, envContent pairs)] ∧
      get_workflow_environment_variables env [(path, envContent pairs)] =
        .ok (lastWinsDict pairs) ∧
      (lastWinsDict pairs).length = (pairs.map Prod.fst).dedup.length ∧
      (∀ k, dictLookup k (lastWinsDict pairs) = dictLookup k pairs.reverse) := by
  refine ⟨writeEnvPairs_ok env path pairs henv hne,
    getWE_written env path pairs henv hclean,
    lastWinsDict_length pairs, fun k => ?_⟩
  rw [lastWinsDict, dictLookup_lastWinsFold]
  exact optOr_none_right _

/-- Witness for C2 on three concrete pairs with a duplicate key. -/
theorem c2_setenv_roundtrip_lastwins_witness :
    get_workflow_environment_variables [("GITHUB_ENV", "envfile")]
        [("envfile", envContent
          [((("A").toList), (("1").toList)), ((("B").toList), (("2").toList)),
            ((("A").toList), (("3").toList))])] =
      .ok (lastWinsDict
        [((("A").toList), (("1").toList)), ((("B").toList), (("2").toList)),
          ((("A").toList), (("3").toList))]) ∧
      (lastWinsDict
        [((("A").toList), (("1").toList)), ((("B").toList), (("2").toList)),
          ((("A").toList), (("3").toList))]).length =
        ([(("A").toList), (("B").toList), (("A").toList)]).dedup.length :=
  ⟨(c2_setenv_roundtrip_lastwins [("GITHUB_ENV", "envfile")] ("envfile") _
      (by rfl) (by decide) (by decide)).2.1,
   (c2_setenv_roundtrip_lastwins [("GITHUB_ENV", "envfile")] ("envfile") _
      (by rfl) (by decide) (by decide)).2.2.1⟩

/-- C2 (counterexample): a single pair whose value has leading and trailing
blanks is not read back as written: the reader strips the value line, so
`("A", " v ")` comes back as `("A", "v")`. -/
theorem c2_roundtrip_strip_counterexample :
    (writeEnvPairs [("GITHUB_ENV", "envfile")] []
        [((("A").toList), ((" v ").toList))]).bind
      (get_workflow_environment_variables [("GITHUB_ENV", "envfile")]) =
      Except.ok [((("A").toList), (("v").toList))] ∧
      (("v").toList) ≠ ((" v ").toList) :=
  ⟨rfl, by decide⟩

/-- C6: with the designated path variable missing from the environment,
`set_output`, `set_env` and `save_state` all fail with the `KeyError` raised
by `os.environ[...]` (the spec's ConfigurationError-class condition) and write
nothing, while `get_workflow_environment_variables` instead degrades to an
empty mapping when `GITHUB_ENV` is unset. -/
theorem c6_missing_path_env (env : Env) (fs : FS) (n : List Char) (v : PyValue)
    (h1 : List.lookup ("GITHUB_OUTPUT") env = Option.none)
    (h2 : List.lookup ("GITHUB_ENV") env = Option.none)
    (h3 : List.lookup ("GITHUB_STATE") env = Option.none) :
    set_output env fs n v = .error .keyError ∧
      set_env env fs n v = .error .keyError ∧
      save_state env fs n v = .error .keyError ∧
      get_workflow_environment_variables env fs = .ok [] := by
  refine ⟨?_, ?_, ?_, ?_⟩
  · unfold set_output
    rw [h1]
  · unfold set_env
    rw [h2]
  · unfold save_state
    rw [h3]
  · unfold get_workflow_environment_variables
    rw [h2]

/-- Witness for C6 in an empty environment. -/
theorem c6_missing_path_env_witness :
    set_output [] [] (("k").toList) (.pstr (("x").toList)) = .error .keyError ∧
      get_workflow_environment_variables [] [] = .ok [] :=
  ⟨(c6_missing_path_env [] [] (("k").toList) (.pstr (("x").toList)) rfl rfl rfl).1,
   (c6_missing_path_env [] [] (("k").toList) (.pstr (("x").toList)) rfl rfl rfl).2.2.2⟩

/-- C9: when the first line of the `GITHUB_ENV` file does not contain the
`<<__ENV_DELIMITER__` marker, the trailing dict assignment runs with the
local names `name`/`decoded_value` still unbound, so the reader raises
`UnboundLocalError` instead of skipping the line. -/
theorem c9_first_line_unbound_local (env : Env) (fs : FS) (path : String)
    (content line : List Char) (rest : List (List Char))
    (henv : List.lookup ("GITHUB_ENV") env = Option.some path)
    (hfs : List.lookup path fs = Option.some content)
    (hsplit : splitLines content = line :: rest)
    (hline : containsSub env_marker line = false) :
    get_workflow_environment_variables env fs = .error .unboundLocalError := by
  rw [getWE_eq_parse env fs path content henv hfs, hsplit, read_env_lines.eq_def]
  simp [hline]

/-- Witness for C9: a file that starts with a plain-text line. -/
theorem c9_first_line_unbound_local_witness :
    get_workflow_environment_variables [("GITHUB_ENV", "ge")]
        [("ge", (("hello\n").toList))] = .error .unboundLocalError :=
  c9_first_line_unbound_local [("GITHUB_ENV", "ge")] [("ge", (("hello\n").toList))]
    ("ge") (("hello\n").toList) (("hello\n").toList) [] rfl rfl rfl (by decide)

/-- C7 (amended): a well-formed block file (clean pairs) ending with a
dangling header parses without raising to exactly the mapping of its complete
blocks — the dangling entry is discarded by the `StopIteration`/`break` path —
and the dangling header's key is absent whenever no earlier complete block
wrote that key.  (The absent-key proviso is forced by the counterexample: when
an earlier complete block used the same key, the mapping still contains it.) -/
theorem c7_dangling_header_dropped (env : Env) (path : String)
    (pairs : List (List Char × List Char)) (k : List Char)
    (henv : List.lookup ("GITHUB_ENV") env = Option.some path)
    (hclean : ∀ p ∈ pairs, cleanKey p.1 ∧ cleanVal p.2)
    (hk : cleanKey k)
    (hmem : k ∉ pairs.map Prod.fst) :
    get_workflow_environment_variables env
        [(path, envContent pairs ++ (k ++ env_marker))] = .ok (lastWinsDict pairs) ∧
      dictLookup k (lastWinsDict pairs) = Option.none := by
  constructor
  · rw [getWE_eq_parse env _ path (envContent pairs ++ (k ++ env_marker)) henv
      (by simp [List.lookup])]
    have hlf : ('\n') ∉ k ++ env_marker := by
      intro hm
      rcases List.mem_append.mp hm with h | h
      · exact cleanKey_lf_free k hk h
      · exact lf_not_mem_env_marker h
    have hne : k ++ env_marker ≠ [] := by
      intro h
      cases k with
      | nil => exact absurd h (by decide)
      | cons c t => exact absurd h (by simp)
    have hsplit : splitLines (envContent pairs ++ (k ++ env_marker)) =
        blockTriples pairs ++ [k ++ env_marker] := by
      rw [splitLines_envContent_append pairs _ hclean, splitLines_no_newline _ hlf hne]
    rw [hsplit, read_env_lines_blocks pairs _ [] Option.none hclean]
    rw [read_env_lines.eq_def]
    have hcont : containsSub env_marker (k ++ env_marker) = true := by
      have h0 := containsSub_self_append env_marker ([] : List Char)
      rw [List.append_nil] at h0
      exact containsSub_append_left _ k _ h0
    simp [hcont, lastWinsDict]
  · rw [lastWinsDict, dictLookup_lastWinsFold]
    have h1 : dictLookup k pairs.reverse = Option.none := by
      apply dictLookup_eq_none_of_not_mem
      simpa [List.map_reverse] using hmem
    rw [h1]
    rfl

/-- Witness for C7: one complete block, then a dangling header with a fresh
key. -/
theorem c7_dangling_header_dropped_witness :
    get_workflow_environment_variables [("GITHUB_ENV", "ge")]
        [("ge", envContent [((("A").toList), (("1").toList))] ++
          ((("B").toList) ++ env_marker))] =
      .ok (lastWinsDict [((("A").toList), (("1").toList))]) ∧
      dictLookup (("B").toList)
        (lastWinsDict [((("A").toList), (("1").toList))]) = Option.none :=
  c7_dangling_header_dropped [("GITHUB_ENV", "ge")] ("ge") _ (("B").toList)
    rfl (by decide) (by decide) (by decide)

/-- C7 (counterexample): when the dangling header repeats the key of an
earlier complete block, the returned mapping does NOT omit that key — it
still holds the earlier value — so the claim as stated (the mapping "omits
that header's key entirely") fails. -/
theorem c7_dangling_header_counterexample :
    get_workflow_environment_variables [("GITHUB_ENV", "ge")]
        [("ge", envContent [((("A").toList), (("1").toList))] ++
          ((("A").toList) ++ env_marker))] =
      Except.ok [((("A").toList), (("1").toList))] ∧
      dictLookup (("A").toList) [((("A").toList), (("1").toList))] =
        Option.some (("1").toList) :=
  ⟨rfl, rfl⟩

end GithubActionUtils
